import Mathlib

/-!
# Verification of the MindtPy OA iteration loop and the interior-point
# regularization contract

Shallow embedding of `pyomo/contrib/mindtpy/iterate.py` (the outer
approximation iteration loop for MINLP) and of the regularization /
inertia-correction contract exercised by
`pyomo/contrib/interior_point/tests/test_reg.py`.

The MindtPy side is translated directly from the source file
`iterate.py`.  All collaborators that live in other modules
(`solve_OA_master`, `solve_NLP_subproblem`, the handler functions, the
user callbacks, the clock, and the concrete MILP solver called inside
`bound_fix`) are modelled as oracle inputs supplied through environment
records; the control flow, state updates and error behaviour of
`iterate.py` itself are embedded faithfully.
-/

/-- Termination conditions (`pyomo.opt.TerminationCondition`, the members
used by `iterate.py`). `unknown` stands for any other member. -/
inductive TCond
  | optimal
  | locallyOptimal
  | infeasible
  | maxIterations
  | maxTimeLimit
  | feasible
  | other
  | unknown
  deriving Repr, DecidableEq

/-- The configuration fields of `config` that `iterate.py` reads.
`strategyOA` is `config.strategy in {'OA', 'GOA'}`. -/
structure Config where
  iteration_limit : Nat
  time_limit : ℚ
  bound_tolerance : ℚ
  cycling_check : Bool
  add_nogood_cuts : Bool
  single_tree : Bool
  strategyOA : Bool
  deriving Repr, DecidableEq

/-- The fields of `solve_data` that `iterate.py` reads or writes.
`term_cond` is `solve_data.results.solver.termination_condition`;
`mip_int_vals` holds the values of the integer-typed variables of
`solve_data.mip` (in the fixed iteration order of
`component_data_objects`); `integer_cuts_active` is the activity flag of
each constraint in `MindtPy_linear_cuts.integer_cuts`; `sense_minimize`
records whether the active objective of the working model has sense
`minimize`. -/
structure SolveData where
  mip_iter : Nat
  mip_subiter : Nat
  LB : ℚ
  UB : ℚ
  LB_progress : List ℚ
  UB_progress : List ℚ
  prev_int_sol : List Int
  curr_int_sol : List Int
  term_cond : TCond
  mip_int_vals : List ℚ
  integer_cuts_active : List Bool
  sense_minimize : Bool
  deriving Repr, DecidableEq

/-- Python 3 `round` on a rational value: round half to even
(banker's rounding), as used in `int(round(var.value))`. -/
def pyRound (q : ℚ) : Int :=
  let f : Int := ⌊q⌋
  let r : ℚ := q - (f : ℚ)
  if r < 1/2 then f
  else if 1/2 < r then f + 1
  else if f % 2 = 0 then f else f + 1

/-- The list `temp` built by the cycling check of
`algorithm_should_terminate`: `int(round(var.value))` over the
integer-typed variables of `solve_data.mip`. -/
def roundedIntSol (s : SolveData) : List Int :=
  s.mip_int_vals.map pyRound

/-- `algorithm_should_terminate(solve_data, config, check_cycling)` from
`iterate.py`.  `elapsed` is the value of
`get_main_elapsed_time(solve_data.timing)` at this call.  Returns the
boolean result together with the mutated `solve_data`. -/
def algorithm_should_terminate (cfg : Config) (elapsed : ℚ) (check_cycling : Bool)
    (s : SolveData) : Bool × SolveData :=
  -- Check bound convergence
  if s.LB + cfg.bound_tolerance ≥ s.UB then
    (true, {s with term_cond := TCond.optimal})
  -- Check iteration limit
  else if s.mip_iter ≥ cfg.iteration_limit then
    (true, {s with term_cond := TCond.maxIterations})
  -- Check time limit
  else if elapsed ≥ cfg.time_limit then
    (true, {s with term_cond := TCond.maxTimeLimit})
  -- Cycling check
  else if cfg.cycling_check ∧ s.mip_iter ≥ 1 ∧ check_cycling then
    let temp := roundedIntSol s
    let s1 := {s with curr_int_sol := temp}
    if s1.curr_int_sol = s1.prev_int_sol then
      (true, {s1 with term_cond := TCond.feasible})
    else
      (false, {s1 with prev_int_sol := s1.curr_int_sol})
  else
    (false, s)

/-- Exceptions that `iterate.py` can raise to its caller:
`NotImplementedError` (unsupported strategy), `UnboundLocalError`
(`last_iter_cuts` referenced without assignment), or an exception raised
inside a user callback (tagged with an opaque code). -/
inductive PyErr
  | notImplemented
  | unboundLocal
  | cbError (code : Nat)
  deriving Repr, DecidableEq

/-- Observable external actions of one run of the iteration loop, used to
state which sub-solves, handlers and callbacks were invoked.  `k` is the
index of the loop iteration that produced the event; the `bf` events are
produced by `bound_fix` after loop exit. -/
inductive Event
  | masterSolve (k : Nat)
  | handleMasterOptimal (k : Nat)
  | handleMasterInfeasible (k : Nat)
  | handleMasterOther (k : Nat)
  | masterCallback (k : Nat)
  | nlpSolve (k : Nat)
  | handleNlpOptimal (k : Nat)
  | handleNlpInfeasible (k : Nat)
  | handleNlpOther (k : Nat)
  | nlpCallback (k : Nat)
  | bfNlpSolve
  | bfHandleNlpOptimal
  | bfHandleNlpInfeasible
  | bfHandleNlpOther
  | bfDeactivateIntegerCut
  | bfMasterSolve
  deriving Repr, DecidableEq

/-- Oracle for the externals called during one iteration of the loop:
`solve_OA_master` (its effect on `solve_data` and the termination
condition of its results object), the three master handlers, the master
post-solve callback, `solve_NLP_subproblem`, the three subproblem
handlers, the subproblem post-solve callback, and the elapsed clock
value at each of the two `algorithm_should_terminate` calls.  Callbacks
may raise (`Except.error`). -/
structure IterEnv where
  elapsed1 : ℚ
  masterEff : SolveData → SolveData
  masterTC : TCond
  hMasterOpt : SolveData → SolveData
  hMasterInf : SolveData → SolveData
  hMasterOther : SolveData → SolveData
  masterCb : SolveData → Except PyErr SolveData
  elapsed2 : ℚ
  nlpEff : SolveData → SolveData
  nlpTC : TCond
  hNlpOpt : SolveData → SolveData
  hNlpInf : SolveData → SolveData
  hNlpOther : SolveData → SolveData
  nlpCb : SolveData → Except PyErr SolveData

/-- How the `while` loop of `MindtPy_iteration_loop` is left: by its
guard (`mip_iter < iteration_limit` false at the top), or by one of the
three `break` statements. -/
inductive LoopExit
  | guardExit
  | brokeFirstCheck
  | brokeMasterInfeasible
  | brokeSecondCheck
  deriving Repr, DecidableEq

/-- How one execution of the `while` body ends: fall through to the next
iteration, `break`, or an uncaught exception. -/
inductive BodyRes
  | cont (s : SolveData) (tr : List Event)
  | stop (ex : LoopExit) (s : SolveData) (tr : List Event)
  | err (e : PyErr) (tr : List Event)
  deriving Repr, DecidableEq

/-- The value of the local variable `last_iter_cuts` at loop exit:
assigned `True` by the first-check break and the infeasible-master
break, `False` by the second-check break, and never assigned when the
loop guard exits the loop. -/
def lastIterCuts : LoopExit → Option Bool
  | LoopExit.guardExit => none
  | LoopExit.brokeFirstCheck => some true
  | LoopExit.brokeMasterInfeasible => some true
  | LoopExit.brokeSecondCheck => some false

/-- Invoke a user callback on the current `solve_data`: an exception it
raises is not caught (`BodyRes.err`), otherwise the loop body continues
with the state the callback returns.  The trace `tr` already records the
invocation. -/
def cbStep (cb : SolveData → Except PyErr SolveData) (s : SolveData)
    (tr : List Event) : BodyRes :=
  match cb s with
  | Except.error er => BodyRes.err er tr
  | Except.ok s' => BodyRes.cont s' tr

/-- The part of the loop body following the master handler branch when it
did not break: master post-solve callback, second termination check
(with `check_cycling=True`), and the NLP subproblem phase unless
`config.single_tree` is set. -/
def afterMaster (cfg : Config) (e : IterEnv) (k : Nat) (s4 : SolveData)
    (tr : List Event) : BodyRes :=
  match e.masterCb s4 with
  | Except.error er => BodyRes.err er (tr ++ [Event.masterCallback k])
  | Except.ok s5 =>
    let tr := tr ++ [Event.masterCallback k]
    match algorithm_should_terminate cfg e.elapsed2 true s5 with
    | (true, s6) => BodyRes.stop LoopExit.brokeSecondCheck s6 tr
    | (false, s6) =>
      if cfg.single_tree = false then
        let s7 := e.nlpEff s6
        let tr := tr ++ [Event.nlpSolve k]
        let hr : SolveData × List Event :=
          match e.nlpTC with
          | TCond.optimal => (e.hNlpOpt s7, tr ++ [Event.handleNlpOptimal k])
          | TCond.locallyOptimal => (e.hNlpOpt s7, tr ++ [Event.handleNlpOptimal k])
          | TCond.infeasible => (e.hNlpInf s7, tr ++ [Event.handleNlpInfeasible k])
          | _ => (e.hNlpOther s7, tr ++ [Event.handleNlpOther k])
        cbStep e.nlpCb hr.1 (hr.2 ++ [Event.nlpCallback k])
      else BodyRes.cont s6 tr

/-- One execution of the body of the `while` loop of
`MindtPy_iteration_loop` (the loop guard is checked by `loopGo`):
first termination check (`check_cycling=False`), `mip_subiter = 0`,
strategy dispatch, master solve, branch on the master termination
condition, then `afterMaster`. -/
def loopBody (cfg : Config) (e : IterEnv) (k : Nat) (s : SolveData) : BodyRes :=
  match algorithm_should_terminate cfg e.elapsed1 false s with
  | (true, s1) => BodyRes.stop LoopExit.brokeFirstCheck s1 []
  | (false, s1) =>
    let s2 := {s1 with mip_subiter := 0}
    if cfg.strategyOA then
      let s3 := e.masterEff s2
      match e.masterTC with
      | TCond.optimal =>
        afterMaster cfg e k (e.hMasterOpt s3)
          [Event.masterSolve k, Event.handleMasterOptimal k]
      | TCond.infeasible =>
        BodyRes.stop LoopExit.brokeMasterInfeasible (e.hMasterInf s3)
          [Event.masterSolve k, Event.handleMasterInfeasible k]
      | _ =>
        afterMaster cfg e k (e.hMasterOther s3)
          [Event.masterSolve k, Event.handleMasterOther k]
    else BodyRes.err PyErr.notImplemented []

/-- Result of running the `while` loop to completion: exception, normal
exit (with the way the loop was left), or out of fuel (the Python loop
would still be running). -/
inductive LoopRes
  | err (e : PyErr) (tr : List Event)
  | out (s : SolveData) (ex : LoopExit) (tr : List Event)
  | fuelOut (s : SolveData) (tr : List Event)
  deriving Repr

/-- The `while solve_data.mip_iter < config.iteration_limit` loop of
`MindtPy_iteration_loop`.  `k` numbers the iterations for the event
trace; `fuel` bounds the number of body executions (the loop need not
terminate for arbitrary oracle effects). -/
def loopGo (cfg : Config) (env : Nat → IterEnv) :
    Nat → Nat → SolveData → List Event → LoopRes
  | 0, _, s, tr =>
    if s.mip_iter < cfg.iteration_limit then LoopRes.fuelOut s tr
    else LoopRes.out s LoopExit.guardExit tr
  | fuel + 1, k, s, tr =>
    if s.mip_iter < cfg.iteration_limit then
      match loopBody cfg (env k) k s with
      | BodyRes.cont s' tr' => loopGo cfg env fuel (k + 1) s' (tr ++ tr')
      | BodyRes.stop ex s' tr' => LoopRes.out s' ex (tr ++ tr')
      | BodyRes.err er tr' => LoopRes.err er (tr ++ tr')
    else LoopRes.out s LoopExit.guardExit tr

/-- `max([x] + l)` for a Python nonempty list `[x] + l`. -/
def maxFold (x : ℚ) (l : List ℚ) : ℚ := l.foldl max x

/-- `min([x] + l)` for a Python nonempty list `[x] + l`. -/
def minFold (x : ℚ) (l : List ℚ) : ℚ := l.foldl min x

/-- `integer_cuts[len(integer_cuts)].deactivate()`: `ConstraintList` is
1-indexed, so this deactivates the last (most recent) integer cut. -/
def setLastFalse : List Bool → List Bool
  | [] => []
  | [_] => [false]
  | x :: y :: t => x :: setLastFalse (y :: t)

/-- Oracle for the externals called by `bound_fix`:
`solve_NLP_subproblem` and its handlers (used when
`last_iter_cuts is False`), and the fresh master solve
(`SolverFactory(config.mip_solver)` + `masteropt.solve`), whose results
object carries `problem.lower_bound` / `problem.upper_bound` and which
loads the solved variable values into `solve_data.mip`. -/
structure BFEnv where
  nlpEff : SolveData → SolveData
  nlpTC : TCond
  hNlpOpt : SolveData → SolveData
  hNlpInf : SolveData → SolveData
  hNlpOther : SolveData → SolveData
  masterLower : ℚ
  masterUpper : ℚ
  masterVals : List ℚ

/-- The NLP-subproblem phase of `bound_fix`, executed when
`last_iter_cuts is False`: solve the subproblem and dispatch to the
handler selected by its termination condition (no post-solve callback
is invoked here). -/
def bound_fix_nlp (bf : BFEnv) (s : SolveData) : SolveData × List Event :=
  let s7 := bf.nlpEff s
  match bf.nlpTC with
  | TCond.optimal => (bf.hNlpOpt s7, [Event.bfNlpSolve, Event.bfHandleNlpOptimal])
  | TCond.locallyOptimal => (bf.hNlpOpt s7, [Event.bfNlpSolve, Event.bfHandleNlpOptimal])
  | TCond.infeasible => (bf.hNlpInf s7, [Event.bfNlpSolve, Event.bfHandleNlpInfeasible])
  | _ => (bf.hNlpOther s7, [Event.bfNlpSolve, Event.bfHandleNlpOther])

/-- The bound-correction core of `bound_fix`: deactivate the most recent
integer cut, re-solve the master problem once, and update
`LB`/`LB_progress` (minimize) or `UB`/`UB_progress` (maximize) with
`max([lower_bound] + LB_progress[:-1])` resp.
`min([upper_bound] + UB_progress[:-1])`; finally record `optimal` if the
corrected bounds have converged.  (The persistent-solver `set_instance`
call and the gams `optcr` option only configure the external solver; the
assignment `config.zero_tolerance = 1E-4` writes a config field that no
code in this module reads.) -/
def bound_fix_update (cfg : Config) (bf : BFEnv) (s : SolveData) :
    SolveData × List Event :=
  let s1 := {s with integer_cuts_active := setLastFalse s.integer_cuts_active}
  let s2 := {s1 with mip_int_vals := bf.masterVals}
  let s3 :=
    if s2.sense_minimize then
      let newLB := maxFold bf.masterLower s2.LB_progress.dropLast
      {s2 with LB := newLB, LB_progress := s2.LB_progress ++ [newLB]}
    else
      let newUB := minFold bf.masterUpper s2.UB_progress.dropLast
      {s2 with UB := newUB, UB_progress := s2.UB_progress ++ [newUB]}
  let s4 :=
    if s3.LB + cfg.bound_tolerance ≥ s3.UB then
      {s3 with term_cond := TCond.optimal}
    else s3
  (s4, [Event.bfDeactivateIntegerCut, Event.bfMasterSolve])

/-- `bound_fix(solve_data, config, last_iter_cuts)` from `iterate.py`. -/
def bound_fix (cfg : Config) (bf : BFEnv) (s : SolveData)
    (last_iter_cuts : Bool) : SolveData × List Event :=
  if last_iter_cuts = false then
    let p1 := bound_fix_nlp bf s
    let p2 := bound_fix_update cfg bf p1.1
    (p2.1, p1.2 ++ p2.2)
  else
    let p2 := bound_fix_update cfg bf s
    (p2.1, p2.2)

/-- Result of `MindtPy_iteration_loop`: an uncaught exception, normal
return, or fuel exhaustion (the Python loop would still be running). -/
inductive RunRes
  | err (e : PyErr) (tr : List Event)
  | done (s : SolveData) (tr : List Event)
  | fuelOut (s : SolveData) (tr : List Event)
  deriving Repr, DecidableEq

/-- `MindtPy_iteration_loop(solve_data, config)` from `iterate.py`: run
the `while` loop, then, if `config.add_nogood_cuts` is set, call
`bound_fix(solve_data, config, last_iter_cuts)` — which raises
`UnboundLocalError` when the loop was left by its guard, since
`last_iter_cuts` is assigned only on the `break` paths. -/
def MindtPy_iteration_loop (cfg : Config) (env : Nat → IterEnv) (bf : BFEnv)
    (fuel : Nat) (s : SolveData) : RunRes :=
  match loopGo cfg env fuel 0 s [] with
  | LoopRes.err er tr => RunRes.err er tr
  | LoopRes.fuelOut s' tr => RunRes.fuelOut s' tr
  | LoopRes.out s' ex tr =>
    if cfg.add_nogood_cuts then
      match lastIterCuts ex with
      | none => RunRes.err PyErr.unboundLocal tr
      | some b =>
        let p := bound_fix cfg bf s' b
        RunRes.done p.1 (tr ++ p.2)
    else RunRes.done s' tr

/-- Monotone non-decreasing test for a recorded progress sequence. -/
def nondecr : List ℚ → Bool
  | [] => true
  | [_] => true
  | x :: y :: t => decide (x ≤ y) && nondecr (y :: t)

/-- Monotone non-increasing test for a recorded progress sequence. -/
def nonincr : List ℚ → Bool
  | [] => true
  | [_] => true
  | x :: y :: t => decide (y ≤ x) && nonincr (y :: t)

/-- The `LoopExit` of a finished loop run, if any. -/
def exitOf : LoopRes → Option LoopExit
  | LoopRes.out _ ex _ => some ex
  | _ => none

/-- The event trace of a normally returned `MindtPy_iteration_loop`. -/
def runTrace : RunRes → Option (List Event)
  | RunRes.done _ tr => some tr
  | _ => none

/-- The final `solve_data` of a normally returned run. -/
def runState : RunRes → Option SolveData
  | RunRes.done s _ => some s
  | _ => none

/-- The event trace of one loop-body execution. -/
def bodyTrace : BodyRes → List Event
  | BodyRes.cont _ tr => tr
  | BodyRes.stop _ _ tr => tr
  | BodyRes.err _ tr => tr

/-- The `LoopExit` of a loop-body execution that ended in `break`. -/
def bodyExit : BodyRes → Option LoopExit
  | BodyRes.stop ex _ _ => some ex
  | _ => none

/-- The exception of a loop-body execution that raised. -/
def bodyErr : BodyRes → Option PyErr
  | BodyRes.err er _ => some er
  | _ => none


/-!
## Interior-point regularization (spec-modelled)

The interior-point solver itself
(`pyomo/contrib/interior_point/interior_point.py` and the linear-algebra
interfaces) is not part of the excerpt — only its test
`tests/test_reg.py` is.  The definitions below are therefore modelled
from the spec (§4.1–4.3, §8): a linear-solver adapter that reports the
inertia (counts of positive / negative / zero eigenvalues) of a
symmetric rational matrix, the primal-dual KKT matrix of the fixed test
model `make_model`, and the regularization engine that scans a geometric
coefficient sequence until the reported inertia matches the expected
signature.  Exact rational arithmetic is carried out on unreduced
integer fractions (`Frac`), so that every step is a plain integer
computation.
-/

/-- An exact rational as an unreduced integer fraction with positive
denominator (maintained by the operations below, given positive-denominator
inputs and division by fractions with nonzero numerator). -/
structure Frac where
  num : Int
  den : Int
  deriving Repr, DecidableEq

/-- The rational value of a fraction. -/
def Frac.val (f : Frac) : ℚ := (f.num : ℚ) / (f.den : ℚ)

/-- Embed an integer. -/
def Frac.ofInt (n : Int) : Frac := ⟨n, 1⟩

/-- Fraction addition (denominators multiply; no reduction). -/
def Frac.add (a b : Frac) : Frac := ⟨a.num * b.den + b.num * a.den, a.den * b.den⟩

/-- Fraction subtraction. -/
def Frac.sub (a b : Frac) : Frac := ⟨a.num * b.den - b.num * a.den, a.den * b.den⟩

/-- Fraction multiplication. -/
def Frac.mul (a b : Frac) : Frac := ⟨a.num * b.num, a.den * b.den⟩

/-- Fraction division, keeping the denominator positive. -/
def Frac.divF (a b : Frac) : Frac :=
  if 0 ≤ b.num then ⟨a.num * b.den, a.den * b.num⟩
  else ⟨-(a.num * b.den), -(a.den * b.num)⟩

/-- Nonzero test (valid for a nonzero denominator). -/
def Frac.nonzero (f : Frac) : Bool := decide (f.num ≠ 0)

/-- Positivity test (valid for a positive denominator). -/
def Frac.posF (f : Frac) : Bool := decide (0 < f.num)

/-- Inertia of a symmetric matrix: counts of positive, negative and zero
eigenvalues. -/
structure Inertia where
  pos : Nat
  neg : Nat
  null : Nat
  deriving Repr, DecidableEq

/-- Entry `(i, j)` of a dense matrix given as a list of rows. -/
def ent (A : List (List Frac)) (i j : Nat) : Frac :=
  (A.getD i []).getD j (Frac.ofInt 0)

/-- Build the dense `n × n` matrix with entry function `f`. -/
def build (n : Nat) (f : Nat → Nat → Frac) : List (List Frac) :=
  (List.range n).map fun i => (List.range n).map fun j => f i j

/-- Index embedding that skips position `p`. -/
def skip (p i : Nat) : Nat := if i < p then i else i + 1

/-- One step of symmetric Gaussian elimination by congruence: eliminate
row and column `p` of the `(n+1) × (n+1)` matrix `A` using the nonzero
diagonal pivot `A p p`, returning the `n × n` Schur complement
`B i j = A i' j' - A i' p * A p j' / A p p`.  The congruence preserves
the eigenvalue sign counts (Sylvester's law of inertia), and the pivot
contributes one eigenvalue of the sign of `A p p`. -/
def schurAt (n p : Nat) (A : List (List Frac)) : List (List Frac) :=
  build n fun i j =>
    Frac.sub (ent A (skip p i) (skip p j))
      (Frac.divF (Frac.mul (ent A (skip p i) p) (ent A p (skip p j))) (ent A p p))

/-- Congruence transform `E A Eᵀ` with `E = I + e i eⱼᵀ` (add row `j` to
row `i`, then column `j` to column `i`).  When the whole diagonal is
zero and `A i j ≠ 0`, the transformed matrix has the nonzero diagonal
entry `2 * A i j` at `(i, i)`. -/
def addRowCol (n i j : Nat) (A : List (List Frac)) : List (List Frac) :=
  build n fun r c =>
    Frac.add (Frac.add (Frac.add (ent A r c)
        (if r = i then ent A j c else Frac.ofInt 0))
        (if c = i then ent A r j else Frac.ofInt 0))
      (if r = i ∧ c = i then ent A j j else Frac.ofInt 0)

/-- Modelled from the spec: the linear-solver adapter's reported inertia
(`LinearSolverAdapter.factorize` + `get_inertia`, §4.1) for a symmetric
rational matrix, computed by diagonalization under congruence
(Sylvester's law of inertia): repeatedly pick a nonzero diagonal pivot
and take the Schur complement; when the diagonal is all zero, first make
a diagonal entry nonzero by a congruence row/column addition; a matrix
with no nonzero entry contributes only zero eigenvalues. -/
def sigGo : Nat → List (List Frac) → Inertia
  | 0, _ => ⟨0, 0, 0⟩
  | n + 1, A =>
    match (List.range (n + 1)).find? (fun i => (ent A i i).nonzero) with
    | some p =>
      let s := sigGo n (schurAt n p A)
      if (ent A p p).posF then ⟨s.pos + 1, s.neg, s.null⟩
      else ⟨s.pos, s.neg + 1, s.null⟩
    | none =>
      match (List.range (n + 1)).findSome? (fun i =>
          ((List.range (n + 1)).find? (fun j => decide (j ≠ i) && (ent A i j).nonzero)).map
            (fun j => (i, j))) with
      | some (i, j) =>
        let A' := addRowCol (n + 1) i j A
        let s := sigGo n (schurAt n i A')
        if (ent A' i i).posF then ⟨s.pos + 1, s.neg, s.null⟩
        else ⟨s.pos, s.neg + 1, s.null⟩
      | none => ⟨0, 0, n + 1⟩

/-- Reported inertia of an `n × n` symmetric matrix. -/
def inertiaOf (n : Nat) (A : List (List Frac)) : Inertia := sigGo n A

/-- Modelled from the spec: the primal-dual KKT matrix that
`InteriorPointInterface.evaluate_primal_dual_kkt_matrix` produces for
the test model `make_model` of `test_reg.py` at the initial point (all
variables at their declared starting value 0, duals zero), with primal
(Hessian) regularization `dp` and equality-gradient (dual)
regularization `-dc` on the diagonal.  Primal variables, in order:
`x[1], x[2], x[3], F, f[3]` (`f[1], f[2]` are fixed and excluded); the
four equality constraints are `sum_con : x1+x2+x3 = 1` and
`bilin_con[i] : F*x[i] = f[i]`.  At the initial point the Lagrangian
Hessian is `diag(0,0,0,2,0)` (objective `F**2`, zero duals), the
Jacobian rows are `[1,1,1,0,0]`, `[0,0,0,0,0]`, `[0,0,0,0,0]`,
`[0,0,0,0,-1]`, and the model has no variable bounds or inequalities, so
the barrier parameter 0.1 contributes no diagonal terms. -/
def testKKT (dp dc : Frac) : List (List Frac) :=
  let o : Frac := Frac.ofInt 1
  let z : Frac := Frac.ofInt 0
  let m : Frac := Frac.ofInt (-1)
  let h : Frac := Frac.add (Frac.ofInt 2) dp
  let e : Frac := Frac.sub z dc
  [[dp, z, z, z, z, o, z, z, z],
   [z, dp, z, z, z, o, z, z, z],
   [z, z, dp, z, z, o, z, z, z],
   [z, z, z, h, z, z, z, z, z],
   [z, z, z, z, dp, z, z, z, m],
   [o, o, o, z, z, e, z, z, z],
   [z, z, z, z, z, z, e, z, z],
   [z, z, z, z, z, z, z, e, z],
   [z, z, z, z, m, z, z, z, e]]

/-- Reported inertia of the test KKT matrix at primal regularization
`dp` and dual regularization `dc`. -/
def testInert (dp dc : Frac) : Inertia := inertiaOf 9 (testKKT dp dc)

/-- `make_model` has four equality constraints (`sum_con` and
`bilin_con[1..3]`): `n_eq_constraints()`. -/
def test_n_eq : Nat := 4

/-- `make_model` has no inequality constraints: `n_ineq_constraints()`. -/
def test_n_ineq : Nat := 0

/-- The expected-inertia test of the regularization engine (§4.3): zero
null eigenvalues and exactly `n_eq + n_ineq` negative eigenvalues. -/
def inertiaOKb (nEq nIneq : Nat) (s : Inertia) : Bool :=
  decide (s.null = 0 ∧ s.neg = nEq + nIneq)

/-- A successful factorization: the regularization coefficient used and
the reported inertia. -/
structure FactRes where
  coef : Frac
  inertia : Inertia
  deriving Repr, DecidableEq

/-- Modelled from the spec (§4.3): scan the geometric coefficient
sequence `c, 100*c, ...` (bounded retries), factorizing with dual
regularization `dc`, until the reported inertia matches the expected
signature; return the first (minimal) coefficient that succeeds. -/
def tryCoefs (inert : Frac → Frac → Inertia) (ok : Inertia → Bool) (dc : Frac) :
    Nat → Frac → Option FactRes
  | 0, _ => none
  | fuel + 1, c =>
    let s := inert c dc
    if ok s then some ⟨c, s⟩
    else tryCoefs inert ok dc fuel (Frac.mul c (Frac.ofInt 100))

/-- Modelled from the spec (§4.3, `RegularizationEngine.factorize`,
exposed as `InteriorPointSolver.factorize`): attempt factorization with
zero regularization; if the reported inertia is wrong (too few negative
eigenvalues, or any null eigenvalues), apply the small equality-gradient
regularization `dc` and increase the primal coefficient geometrically
starting at `1e-4`, re-factorizing until the inertia matches
`{n_neg = n_eq + n_ineq, n_null = 0}` or the retries are exhausted
(`none` = RegularizationFailure).  The returned coefficient is the
minimal value along the tried sequence achieving correct inertia. -/
def regFactorize (inert : Frac → Frac → Inertia) (nEq nIneq : Nat) (dc : Frac)
    (maxRetries : Nat) : Option FactRes :=
  let s0 := inert (Frac.ofInt 0) (Frac.ofInt 0)
  if inertiaOKb nEq nIneq s0 then some ⟨Frac.ofInt 0, s0⟩
  else tryCoefs inert (inertiaOKb nEq nIneq) dc maxRetries ⟨1, 10000⟩

/-- Modelled from the spec: the magnitude of the equality-gradient
regularization applied when the unregularized system is singular (a
fixed small constant scaled from the barrier parameter). -/
def testDualReg : Frac := ⟨1, 100000000⟩

/-!
## Concrete instances used by witnesses and counterexamples
-/

/-- A benign oracle: `solve_OA_master` increments `mip_iter` and reports
`optimal`, every handler is the identity, callbacks return the state
unchanged, the clock stays at 0. -/
def benignEnv : IterEnv where
  elapsed1 := 0
  masterEff := fun s => {s with mip_iter := s.mip_iter + 1}
  masterTC := TCond.optimal
  hMasterOpt := id
  hMasterInf := id
  hMasterOther := id
  masterCb := fun s => Except.ok s
  elapsed2 := 0
  nlpEff := id
  nlpTC := TCond.optimal
  hNlpOpt := id
  hNlpInf := id
  hNlpOther := id
  nlpCb := fun s => Except.ok s

/-- `benignEnv` with an infeasible master result. -/
def infEnv : IterEnv := {benignEnv with masterTC := TCond.infeasible}

/-- `benignEnv` whose master post-solve callback raises. -/
def raisingEnv : IterEnv :=
  {benignEnv with masterCb := fun _ => Except.error (PyErr.cbError 7)}

/-- A `bound_fix` oracle: the corrective master re-solve reports lower
bound 1 and upper bound 9; the optional NLP phase is benign. -/
def bfEnv : BFEnv where
  nlpEff := id
  nlpTC := TCond.optimal
  hNlpOpt := id
  hNlpInf := id
  hNlpOther := id
  masterLower := 1
  masterUpper := 9
  masterVals := []

/-- Base solve state: loose bounds `LB = 0 < UB = 10`, empty history,
one active integer cut, minimizing. -/
def sdBase : SolveData where
  mip_iter := 0
  mip_subiter := 0
  LB := 0
  UB := 10
  LB_progress := []
  UB_progress := []
  prev_int_sol := []
  curr_int_sol := []
  term_cond := TCond.unknown
  mip_int_vals := []
  integer_cuts_active := [true]
  sense_minimize := true

/-- Base configuration: OA strategy, one master iteration allowed,
no-good cuts on. -/
def cfgBase : Config where
  iteration_limit := 1
  time_limit := 100
  bound_tolerance := 0
  cycling_check := false
  add_nogood_cuts := true
  single_tree := false
  strategyOA := true

/-- `cfgBase` with the iteration limit already exhausted and no-good
cuts off. -/
def cfgZeroIter : Config := {cfgBase with iteration_limit := 0, add_nogood_cuts := false}

/-- Bound-converged state. -/
def sdConv : SolveData := {sdBase with LB := 10}

/-- State whose iteration counter has reached `cfgBase.iteration_limit`. -/
def sdIterLim : SolveData := {sdBase with mip_iter := 1}

/-- State with recorded progress `[0, 10]` whose last entry is the
unreliable bound that `bound_fix` corrects. -/
def sdProg : SolveData := {sdBase with LB := 10, UB := 100, LB_progress := [0, 10]}

/-- `cfgBase` with cycling detection on and a loose iteration limit. -/
def cfgCyc : Config := {cfgBase with cycling_check := true, iteration_limit := 5}

/-- State in iteration 1 whose current integer solution, rounded,
equals the previous one. -/
def sdCyc : SolveData :=
  {sdBase with mip_iter := 1, mip_int_vals := [12/5, 3], prev_int_sol := [2, 3]}

/-- The loop-exit state of running `cfgBase`/`benignEnv` from `sdBase`:
the master solve raises `mip_iter` to 1, and the second termination
check records `maxIterations`. -/
def sdExit : SolveData := {sdBase with mip_iter := 1, term_cond := TCond.maxIterations}

/-- The trace of that run up to loop exit. -/
def trExit : List Event :=
  [Event.masterSolve 0, Event.handleMasterOptimal 0, Event.masterCallback 0]

/-- Monotone non-decreasing recorded progress sequence. -/
def nondecrSeq : List ℚ → Prop
  | [] => True
  | [_] => True
  | x :: y :: t => x ≤ y ∧ nondecrSeq (y :: t)

/-!
## Supporting lemmas
-/

lemma init_le_foldl_max (a : ℚ) (l : List ℚ) : a ≤ l.foldl max a := by
  induction l generalizing a with
  | nil => exact le_refl a
  | cons b t ih =>
    rw [List.foldl_cons]
    exact le_trans (le_max_left a b) (ih (max a b))

lemma mem_le_foldl_max (x a : ℚ) (l : List ℚ) : x ∈ l → x ≤ l.foldl max a := by
  induction l generalizing a with
  | nil => intro h; cases h
  | cons b t ih =>
    intro hx
    rw [List.foldl_cons]
    rcases List.mem_cons.mp hx with rfl | hmem
    · exact le_trans (le_max_right a x) (init_le_foldl_max (max a x) t)
    · exact ih (max a b) hmem

lemma foldl_min_le_init (a : ℚ) (l : List ℚ) : l.foldl min a ≤ a := by
  induction l generalizing a with
  | nil => exact le_refl a
  | cons b t ih =>
    rw [List.foldl_cons]
    exact le_trans (ih (min a b)) (min_le_left a b)

lemma foldl_min_le_mem (x a : ℚ) (l : List ℚ) : x ∈ l → l.foldl min a ≤ x := by
  induction l generalizing a with
  | nil => intro h; cases h
  | cons b t ih =>
    intro hx
    rw [List.foldl_cons]
    rcases List.mem_cons.mp hx with rfl | hmem
    · exact le_trans (foldl_min_le_init (min a x) t) (min_le_right a x)
    · exact ih (min a b) hmem

lemma bodyTrace_cbStep (cb : SolveData → Except PyErr SolveData) (s : SolveData)
    (tr : List Event) : bodyTrace (cbStep cb s tr) = tr := by
  unfold cbStep
  split <;> rfl

lemma bodyExit_cbStep (cb : SolveData → Except PyErr SolveData) (s : SolveData)
    (tr : List Event) : bodyExit (cbStep cb s tr) = none := by
  unfold cbStep
  split <;> rfl

lemma cbStep_ne_stop (cb : SolveData → Except PyErr SolveData) (s : SolveData)
    (tr : List Event) (ex : LoopExit) (s' : SolveData) (tr2 : List Event) :
    cbStep cb s tr ≠ BodyRes.stop ex s' tr2 := by
  unfold cbStep
  split <;> simp

lemma afterMaster_trace_mono (cfg : Config) (e : IterEnv) (k : Nat) (s4 : SolveData)
    (tr : List Event) (ev : Event) (hev : ev ∈ tr) :
    ev ∈ bodyTrace (afterMaster cfg e k s4 tr) := by
  unfold afterMaster
  cases hcb : e.masterCb s4 with
  | error er => simp [bodyTrace, hev]
  | ok s5 =>
    dsimp only
    rcases hast : algorithm_should_terminate cfg e.elapsed2 true s5 with ⟨b, s6⟩
    cases b
    · by_cases hst : cfg.single_tree = false
      · cases hnt : e.nlpTC <;> simp [hst, hnt, bodyTrace_cbStep, hev]
      · simp [hst, bodyTrace, hev]
    · simp [bodyTrace, hev]

lemma afterMaster_callback_mem (cfg : Config) (e : IterEnv) (k : Nat) (s4 : SolveData)
    (tr : List Event) :
    Event.masterCallback k ∈ bodyTrace (afterMaster cfg e k s4 tr) := by
  unfold afterMaster
  cases hcb : e.masterCb s4 with
  | error er => simp [bodyTrace]
  | ok s5 =>
    dsimp only
    rcases hast : algorithm_should_terminate cfg e.elapsed2 true s5 with ⟨b, s6⟩
    cases b
    · by_cases hst : cfg.single_tree = false
      · cases hnt : e.nlpTC <;> simp [hst, hnt, bodyTrace_cbStep]
      · simp [hst, bodyTrace]
    · simp [bodyTrace]

lemma afterMaster_exit_cases (cfg : Config) (e : IterEnv) (k : Nat) (s4 : SolveData)
    (tr : List Event) :
    bodyExit (afterMaster cfg e k s4 tr) = none ∨
      bodyExit (afterMaster cfg e k s4 tr) = some LoopExit.brokeSecondCheck := by
  unfold afterMaster
  cases hcb : e.masterCb s4 with
  | error er => simp [bodyExit]
  | ok s5 =>
    dsimp only
    rcases hast : algorithm_should_terminate cfg e.elapsed2 true s5 with ⟨b, s6⟩
    cases b
    · by_cases hst : cfg.single_tree = false
      · cases hnt : e.nlpTC <;> simp [hst, hnt, bodyExit_cbStep]
      · simp [hst, bodyExit]
    · simp [bodyExit]

lemma afterMaster_stop_shape (cfg : Config) (e : IterEnv) (k : Nat) (s4 : SolveData)
    (tr : List Event) (ex : LoopExit) (s' : SolveData) (tr2 : List Event)
    (h : afterMaster cfg e k s4 tr = BodyRes.stop ex s' tr2) :
    ex = LoopExit.brokeSecondCheck ∧ tr2 = tr ++ [Event.masterCallback k] ∧
      ∃ s5, e.masterCb s4 = Except.ok s5 ∧
        algorithm_should_terminate cfg e.elapsed2 true s5 = (true, s') := by
  unfold afterMaster at h
  split at h
  · cases h
  · rename_i s5 hcb
    split at h
    · rename_i s6 hast
      cases h
      exact ⟨rfl, rfl, s5, hcb, hast⟩
    · split at h
      · exact absurd h (cbStep_ne_stop _ _ _ _ _ _)
      · cases h

lemma afterMaster_nlp_callback (cfg : Config) (e : IterEnv) (k : Nat) (s4 : SolveData)
    (tr : List Event) (hn : Event.nlpSolve k ∉ tr) :
    Event.nlpSolve k ∈ bodyTrace (afterMaster cfg e k s4 tr) →
    Event.nlpCallback k ∈ bodyTrace (afterMaster cfg e k s4 tr) := by
  unfold afterMaster
  cases hcb : e.masterCb s4 with
  | error er =>
    intro hmem
    simp [bodyTrace] at hmem
    exact absurd hmem hn
  | ok s5 =>
    dsimp only
    rcases hast : algorithm_should_terminate cfg e.elapsed2 true s5 with ⟨b, s6⟩
    cases b
    · by_cases hst : cfg.single_tree = false
      · cases hnt : e.nlpTC <;> intro hmem <;> simp [hst, hnt, bodyTrace_cbStep]
      · intro hmem
        simp [hst, bodyTrace] at hmem
        exact absurd hmem hn
    · intro hmem
      simp [bodyTrace] at hmem
      exact absurd hmem hn

lemma loopBody_stop_not_guard (cfg : Config) (e : IterEnv) (k : Nat) (s : SolveData)
    (ex : LoopExit) (s' : SolveData) (tr : List Event)
    (h : loopBody cfg e k s = BodyRes.stop ex s' tr) : ex ≠ LoopExit.guardExit := by
  unfold loopBody at h
  rcases hast : algorithm_should_terminate cfg e.elapsed1 false s with ⟨b1, s1⟩
  rw [hast] at h
  cases b1
  · dsimp only at h
    split at h
    · cases hmt : e.masterTC <;> rw [hmt] at h
      all_goals first
        | (cases h; simp)
        | (rcases afterMaster_stop_shape _ _ _ _ _ _ _ _ h with ⟨hex, -, -⟩
           rw [hex]; simp)
    · cases h
  · dsimp only at h
    cases h
    simp

lemma loopBody_second_check_no_nlp (cfg : Config) (e : IterEnv) (k : Nat) (s : SolveData)
    (s' : SolveData) (tr : List Event)
    (h : loopBody cfg e k s = BodyRes.stop LoopExit.brokeSecondCheck s' tr) :
    Event.nlpSolve k ∉ tr ∧ Event.nlpCallback k ∉ tr ∧
      ∃ s5, algorithm_should_terminate cfg e.elapsed2 true s5 = (true, s') := by
  unfold loopBody at h
  rcases hast : algorithm_should_terminate cfg e.elapsed1 false s with ⟨b1, s1⟩
  rw [hast] at h
  cases b1
  · dsimp only at h
    split at h
    · cases hmt : e.masterTC <;> rw [hmt] at h
      all_goals first
        | (cases h)
        | (rcases afterMaster_stop_shape _ _ _ _ _ _ _ _ h with ⟨-, htr, s5, -, hterm⟩
           subst htr
           exact ⟨by simp, by simp, s5, hterm⟩)
    · cases h
  · dsimp only at h
    cases h

lemma loopGo_guardExit_le (cfg : Config) (env : Nat → IterEnv) :
    ∀ (fuel k : Nat) (s : SolveData) (tr : List Event) (s' : SolveData) (tr2 : List Event),
      loopGo cfg env fuel k s tr = LoopRes.out s' LoopExit.guardExit tr2 →
      cfg.iteration_limit ≤ s'.mip_iter := by
  intro fuel
  induction fuel with
  | zero =>
    intro k s tr s' tr2 h
    unfold loopGo at h
    split at h
    · cases h
    · rename_i hguard
      cases h
      exact Nat.le_of_not_lt hguard
  | succ fuel ih =>
    intro k s tr s' tr2 h
    unfold loopGo at h
    split at h
    · cases hb : loopBody cfg (env k) k s with
      | cont s'' tr'' =>
        rw [hb] at h
        exact ih (k + 1) _ _ _ _ h
      | stop ex s'' tr'' =>
        rw [hb] at h
        cases h
        exact absurd rfl (loopBody_stop_not_guard cfg (env k) k s _ _ _ hb)
      | err er tr'' =>
        rw [hb] at h
        cases h
    · rename_i hguard
      cases h
      exact Nat.le_of_not_lt hguard

/-!
## Claim theorems
-/

set_option maxRecDepth 100000 in
/-- C1: for the fixed test model (`make_model`) with barrier parameter
0.1, the (spec-modelled) `InteriorPointSolver.factorize` applied to the
evaluated primal-dual KKT matrix returns the regularization coefficient
`1e-4` — the minimal value along the tried geometric sequence achieving
correct inertia, the unregularized attempt having failed the inertia
test — and the reported inertia afterwards has exactly 0 null
eigenvalues and a number of negative eigenvalues exactly equal to
`n_eq_constraints() + n_ineq_constraints()` (4 + 0). -/
theorem reg_factorize_test_model :
    (regFactorize testInert test_n_eq test_n_ineq testDualReg 10).map
        (fun r => (r.coef, r.inertia.null, r.inertia.neg)) =
      some (⟨1, 10000⟩, 0, test_n_eq + test_n_ineq) ∧
    inertiaOKb test_n_eq test_n_ineq (testInert (Frac.ofInt 0) (Frac.ofInt 0)) = false ∧
    Frac.val ⟨1, 10000⟩ = 1 / 10000 := by
  refine ⟨by decide, by decide, ?_⟩
  norm_num [Frac.val]

/-- C3: `algorithm_should_terminate` evaluates its conditions in a fixed
order — bound convergence (`LB + bound_tolerance >= UB`, recording
`optimal`), then iteration limit (`mip_iter >= iteration_limit`,
recording `maxIterations`), then time limit (`elapsed >= time_limit`,
recording `maxTimeLimit`) — and the first condition that holds
determines the recorded termination condition and makes the check
return true. -/
theorem termination_check_priority (cfg : Config) (elapsed : ℚ) (cyc : Bool)
    (s : SolveData) :
    (s.LB + cfg.bound_tolerance ≥ s.UB →
      algorithm_should_terminate cfg elapsed cyc s =
        (true, {s with term_cond := TCond.optimal})) ∧
    (¬(s.LB + cfg.bound_tolerance ≥ s.UB) → s.mip_iter ≥ cfg.iteration_limit →
      algorithm_should_terminate cfg elapsed cyc s =
        (true, {s with term_cond := TCond.maxIterations})) ∧
    (¬(s.LB + cfg.bound_tolerance ≥ s.UB) → ¬(s.mip_iter ≥ cfg.iteration_limit) →
      elapsed ≥ cfg.time_limit →
      algorithm_should_terminate cfg elapsed cyc s =
        (true, {s with term_cond := TCond.maxTimeLimit})) := by
  refine ⟨fun h1 => ?_, fun h1 h2 => ?_, fun h1 h2 h3 => ?_⟩
  · simp [algorithm_should_terminate, h1]
  · simp [algorithm_should_terminate, h1, h2]
  · simp [algorithm_should_terminate, h1, h2, h3]

/-- Witness for `termination_check_priority` at concrete inputs: a
bound-converged state records `optimal`, an exhausted iteration counter
records `maxIterations`, an expired clock records `maxTimeLimit`. -/
theorem termination_check_priority_witness :
    algorithm_should_terminate cfgBase 0 false sdConv =
        (true, {sdConv with term_cond := TCond.optimal}) ∧
    algorithm_should_terminate cfgBase 0 false sdIterLim =
        (true, {sdIterLim with term_cond := TCond.maxIterations}) ∧
    algorithm_should_terminate cfgBase 100 false sdBase =
        (true, {sdBase with term_cond := TCond.maxTimeLimit}) :=
  ⟨(termination_check_priority cfgBase 0 false sdConv).1
      (by norm_num [cfgBase, sdConv, sdBase]),
   (termination_check_priority cfgBase 0 false sdIterLim).2.1
      (by norm_num [cfgBase, sdIterLim, sdBase])
      (by norm_num [cfgBase, sdIterLim, sdBase]),
   (termination_check_priority cfgBase 100 false sdBase).2.2
      (by norm_num [cfgBase, sdBase]) (by norm_num [cfgBase, sdBase])
      (by norm_num [cfgBase, sdBase])⟩

/-- C9: when the `while` loop exits through its guard
(`mip_iter >= iteration_limit` at the top, no break taken) and
`config.add_nogood_cuts` is set, the local `last_iter_cuts` is
referenced without ever having been assigned, so the run raises
`UnboundLocalError` instead of performing the bound correction (and a
guard exit indeed means the iteration limit was reached). -/
theorem unbound_local_on_guard_exit (cfg : Config) (env : Nat → IterEnv) (bf : BFEnv)
    (fuel : Nat) (s s' : SolveData) (tr : List Event)
    (hng : cfg.add_nogood_cuts = true)
    (h : loopGo cfg env fuel 0 s [] = LoopRes.out s' LoopExit.guardExit tr) :
    MindtPy_iteration_loop cfg env bf fuel s = RunRes.err PyErr.unboundLocal tr ∧
      cfg.iteration_limit ≤ s'.mip_iter := by
  constructor
  · unfold MindtPy_iteration_loop
    rw [h]
    simp [hng, lastIterCuts]
  · exact loopGo_guardExit_le cfg env fuel 0 s [] s' tr h

/-- Witness for `unbound_local_on_guard_exit`: `iteration_limit = 0`
with `add_nogood_cuts` on raises `UnboundLocalError` immediately. -/
theorem unbound_local_on_guard_exit_witness :
    MindtPy_iteration_loop {cfgBase with iteration_limit := 0} (fun _ => benignEnv)
        bfEnv 3 sdBase = RunRes.err PyErr.unboundLocal [] ∧
      ({cfgBase with iteration_limit := 0}).iteration_limit ≤ sdBase.mip_iter :=
  unbound_local_on_guard_exit {cfgBase with iteration_limit := 0} (fun _ => benignEnv)
    bfEnv 3 sdBase sdBase [] rfl rfl

/-- C4 counterexample: with `iteration_limit = 0` (and `add_nogood_cuts`
off so the run returns at all), the loop stops because `mip_iter` has
reached the iteration limit without bound convergence, yet the recorded
termination condition is left at its prior value (`unknown`), not
`maxIterations` — the guard exit bypasses every termination check. -/
theorem iteration_limit_no_record_cex :
    MindtPy_iteration_loop cfgZeroIter (fun _ => benignEnv) bfEnv 3 sdBase =
        RunRes.done sdBase [] ∧
    sdBase.term_cond ≠ TCond.maxIterations ∧
    sdBase.mip_iter ≥ cfgZeroIter.iteration_limit ∧
    sdBase.LB + cfgZeroIter.bound_tolerance < sdBase.UB := by
  refine ⟨rfl, by decide, by decide, ?_⟩
  norm_num [sdBase, cfgZeroIter, cfgBase]

/-- C4 amended: when a termination *check* observes the iteration limit
without bound convergence it records `maxIterations` and stops the loop;
but when the loop is left by the `while` guard itself (initial
`mip_iter >= iteration_limit`, no break), no termination condition is
recorded — the run returns with `solve_data` unchanged (shown with
`add_nogood_cuts` off; with it on, C9's `UnboundLocalError` fires). -/
theorem iteration_limit_termination_amended (cfg : Config) (env : Nat → IterEnv)
    (bf : BFEnv) (fuel : Nat) (elapsed : ℚ) (cyc : Bool) (s : SolveData)
    (hbc : ¬(s.LB + cfg.bound_tolerance ≥ s.UB)) :
    (s.mip_iter ≥ cfg.iteration_limit →
      algorithm_should_terminate cfg elapsed cyc s =
        (true, {s with term_cond := TCond.maxIterations})) ∧
    (cfg.iteration_limit ≤ s.mip_iter → cfg.add_nogood_cuts = false →
      MindtPy_iteration_loop cfg env bf fuel s = RunRes.done s []) := by
  constructor
  · intro h2
    simp [algorithm_should_terminate, hbc, h2]
  · intro hle hng
    have hguard : ¬(s.mip_iter < cfg.iteration_limit) := Nat.not_lt.mpr hle
    cases fuel with
    | zero =>
      unfold MindtPy_iteration_loop loopGo
      rw [if_neg hguard]
      simp [hng]
    | succ n =>
      unfold MindtPy_iteration_loop loopGo
      rw [if_neg hguard]
      simp [hng]

/-- Witness for `iteration_limit_termination_amended` at concrete
inputs. -/
theorem iteration_limit_termination_amended_witness :
    algorithm_should_terminate cfgZeroIter 0 false sdBase =
        (true, {sdBase with term_cond := TCond.maxIterations}) ∧
    MindtPy_iteration_loop cfgZeroIter (fun _ => benignEnv) bfEnv 3 sdBase =
        RunRes.done sdBase [] := by
  have h := iteration_limit_termination_amended cfgZeroIter (fun _ => benignEnv)
    bfEnv 3 0 false sdBase (by norm_num [cfgZeroIter, cfgBase, sdBase])
  exact ⟨h.1 (by decide), h.2 (by decide) rfl⟩

/-- C2 counterexample: the `bound_fix` bound update is not monotone on
the recorded LB progress: from recorded progress `[0, 10]` (minimize)
with a corrective master lower bound of 1, `bound_fix` appends
`max([1] + [0]) = 1`, yielding `[0, 10, 1]`, which is not
non-decreasing. -/
theorem bound_fix_nonmonotone_cex :
    sdProg.sense_minimize = true ∧
    nondecrSeq sdProg.LB_progress ∧
    (bound_fix cfgBase bfEnv sdProg true).1.LB_progress = [0, 10, 1] ∧
    ¬ nondecrSeq (bound_fix cfgBase bfEnv sdProg true).1.LB_progress := by
  have hlb : (bound_fix cfgBase bfEnv sdProg true).1.LB_progress = [0, 10, 1] := by
    norm_num [bound_fix, bound_fix_update, maxFold, setLastFalse, sdProg, sdBase, bfEnv,
      cfgBase, max_def]
  refine ⟨rfl, ?_, hlb, ?_⟩
  · norm_num [nondecrSeq, sdProg, sdBase]
  · rw [hlb]
    norm_num [nondecrSeq]

/-- C2 amended: the bound update of `bound_fix` appends
`max([master lower bound] + LB_progress[:-1])` when minimizing (the
`min` mirror on UB when maximizing): the appended value dominates the
corrective master bound and every previously recorded bound *except the
last, pre-correction one*, which it may undercut — that last entry is
exactly the unreliable bound the pass corrects, so full monotonicity of
the recorded sequence does not survive `bound_fix` (the main-loop
updates happen in the handler modules outside `iterate.py`). -/
theorem bound_fix_update_bound_characterization (cfg : Config) (bf : BFEnv)
    (s : SolveData) :
    (s.sense_minimize = true →
      (bound_fix_update cfg bf s).1.LB_progress =
          s.LB_progress ++ [(bound_fix_update cfg bf s).1.LB] ∧
        bf.masterLower ≤ (bound_fix_update cfg bf s).1.LB ∧
        ∀ x ∈ s.LB_progress.dropLast, x ≤ (bound_fix_update cfg bf s).1.LB) ∧
    (s.sense_minimize = false →
      (bound_fix_update cfg bf s).1.UB_progress =
          s.UB_progress ++ [(bound_fix_update cfg bf s).1.UB] ∧
        (bound_fix_update cfg bf s).1.UB ≤ bf.masterUpper ∧
        ∀ x ∈ s.UB_progress.dropLast, (bound_fix_update cfg bf s).1.UB ≤ x) := by
  constructor
  · intro hmin
    unfold bound_fix_update maxFold
    dsimp only
    split
    · split
      · exact ⟨rfl, init_le_foldl_max _ _, fun x hx => mem_le_foldl_max x _ _ hx⟩
      · exact ⟨rfl, init_le_foldl_max _ _, fun x hx => mem_le_foldl_max x _ _ hx⟩
    · simp_all
  · intro hmax
    unfold bound_fix_update minFold
    dsimp only
    split
    · simp_all
    · split
      · exact ⟨rfl, foldl_min_le_init _ _, fun x hx => foldl_min_le_mem x _ _ hx⟩
      · exact ⟨rfl, foldl_min_le_init _ _, fun x hx => foldl_min_le_mem x _ _ hx⟩

/-- Witness for `bound_fix_update_bound_characterization` on the
concrete progress `[0, 10]`. -/
theorem bound_fix_update_bound_characterization_witness :
    (bound_fix_update cfgBase bfEnv sdProg).1.LB_progress =
        sdProg.LB_progress ++ [(bound_fix_update cfgBase bfEnv sdProg).1.LB] ∧
      bfEnv.masterLower ≤ (bound_fix_update cfgBase bfEnv sdProg).1.LB ∧
      ∀ x ∈ sdProg.LB_progress.dropLast, x ≤ (bound_fix_update cfgBase bfEnv sdProg).1.LB :=
  (bound_fix_update_bound_characterization cfgBase bfEnv sdProg).1 rfl

/-- C5: the cycling check runs only in the second termination check (the
loop passes `check_cycling=False` to the first one, and a
`check_cycling=False` call never touches `prev_int_sol`/`curr_int_sol`
nor records `feasible`); with `cycling_check` on and `mip_iter >= 1`,
if the rounded integer solution equals the previous iteration's the
check records `feasible` and returns true — and the loop break it causes
happens before any NLP subproblem solve of that iteration — otherwise
`prev_int_sol` is updated to the current rounded assignment. -/
theorem cycling_check_behavior (cfg : Config) (elapsed : ℚ) (s : SolveData)
    (e : IterEnv) (k : Nat) :
    ((algorithm_should_terminate cfg elapsed false s).2.prev_int_sol = s.prev_int_sol ∧
      (algorithm_should_terminate cfg elapsed false s).2.curr_int_sol = s.curr_int_sol ∧
      ((algorithm_should_terminate cfg elapsed false s).2.term_cond = TCond.feasible →
        s.term_cond = TCond.feasible)) ∧
    (cfg.cycling_check = true → 1 ≤ s.mip_iter →
      ¬(s.LB + cfg.bound_tolerance ≥ s.UB) → ¬(s.mip_iter ≥ cfg.iteration_limit) →
      ¬(elapsed ≥ cfg.time_limit) →
      (roundedIntSol s = s.prev_int_sol →
        algorithm_should_terminate cfg elapsed true s =
          (true, {s with curr_int_sol := roundedIntSol s, term_cond := TCond.feasible})) ∧
      (roundedIntSol s ≠ s.prev_int_sol →
        algorithm_should_terminate cfg elapsed true s =
          (false, {s with curr_int_sol := roundedIntSol s,
                          prev_int_sol := roundedIntSol s}))) ∧
    (∀ s' tr, loopBody cfg e k s = BodyRes.stop LoopExit.brokeSecondCheck s' tr →
      Event.nlpSolve k ∉ tr ∧ Event.nlpCallback k ∉ tr) := by
  refine ⟨?_, ?_, ?_⟩
  · unfold algorithm_should_terminate
    split_ifs <;> simp_all
  · intro hcy hit hbc hil htl
    constructor
    · intro heq
      simp [algorithm_should_terminate, hbc, hil, htl, hcy, hit, heq]
    · intro hne
      simp [algorithm_should_terminate, hbc, hil, htl, hcy, hit, hne]
  · intro s' tr h
    have := loopBody_second_check_no_nlp cfg e k s s' tr h
    exact ⟨this.1, this.2.1⟩

/-- Witness for `cycling_check_behavior`: in iteration 1 with values
`[2.4, 3]` rounding to the previous `[2, 3]`, the second check records
`feasible` and reports termination. -/
theorem cycling_check_behavior_witness :
    algorithm_should_terminate cfgCyc 0 true sdCyc =
      (true, {sdCyc with curr_int_sol := roundedIntSol sdCyc,
                         term_cond := TCond.feasible}) :=
  ((cycling_check_behavior cfgCyc 0 sdCyc benignEnv 0).2.1 rfl
      (by norm_num [sdCyc, sdBase])
      (by norm_num [sdCyc, sdBase, cfgCyc, cfgBase])
      (by norm_num [sdCyc, sdBase, cfgCyc, cfgBase])
      (by norm_num [cfgCyc, cfgBase])).1
    (by norm_num [roundedIntSol, pyRound, sdCyc, sdBase])

/-- C6 counterexample: a run that breaks at the second termination check
(`last_iter_cuts = False`, i.e. the last iteration did *not* contribute
a cut) with `add_nogood_cuts` on still performs the bound-correction
pass: the trace of the run contains the corrective master re-solve. -/
theorem bound_fix_without_cut_cex :
    exitOf (loopGo cfgBase (fun _ => benignEnv) 3 0 sdBase []) =
        some LoopExit.brokeSecondCheck ∧
    lastIterCuts LoopExit.brokeSecondCheck = some false ∧
    cfgBase.add_nogood_cuts = true ∧
    (runTrace (MindtPy_iteration_loop cfgBase (fun _ => benignEnv) bfEnv 3 sdBase)).getD [] =
      [Event.masterSolve 0, Event.handleMasterOptimal 0, Event.masterCallback 0,
       Event.bfNlpSolve, Event.bfHandleNlpOptimal,
       Event.bfDeactivateIntegerCut, Event.bfMasterSolve] := by
  refine ⟨?_, rfl, rfl, ?_⟩ <;>
    norm_num [MindtPy_iteration_loop, loopGo, loopBody, afterMaster, cbStep,
      algorithm_should_terminate, bound_fix, bound_fix_nlp, bound_fix_update,
      cfgBase, sdBase, benignEnv, bfEnv, lastIterCuts, exitOf, runTrace]

/-- C6 amended: after loop exit, the bound-correction pass (`bound_fix`,
which deactivates the most recent integer cut and re-solves the master
exactly once) is performed if and only if `config.add_nogood_cuts` is
set and the loop exited via a break (a guard exit raises
`UnboundLocalError` instead); `last_iter_cuts` does not gate the pass —
it only decides whether an extra NLP subproblem solve precedes it. -/
theorem bound_fix_condition_amended (cfg : Config) (env : Nat → IterEnv) (bf : BFEnv)
    (fuel : Nat) (s s' : SolveData) (ex : LoopExit) (tr : List Event)
    (h : loopGo cfg env fuel 0 s [] = LoopRes.out s' ex tr) :
    (cfg.add_nogood_cuts = false →
      MindtPy_iteration_loop cfg env bf fuel s = RunRes.done s' tr) ∧
    (cfg.add_nogood_cuts = true → ∀ b, lastIterCuts ex = some b →
      MindtPy_iteration_loop cfg env bf fuel s =
        RunRes.done (bound_fix cfg bf s' b).1 (tr ++ (bound_fix cfg bf s' b).2)) ∧
    (cfg.add_nogood_cuts = true → lastIterCuts ex = none →
      MindtPy_iteration_loop cfg env bf fuel s = RunRes.err PyErr.unboundLocal tr) ∧
    (∀ b, Event.bfDeactivateIntegerCut ∈ (bound_fix cfg bf s' b).2 ∧
      Event.bfMasterSolve ∈ (bound_fix cfg bf s' b).2 ∧
      ((bound_fix cfg bf s' b).2.count Event.bfMasterSolve = 1)) ∧
    (Event.bfNlpSolve ∈ (bound_fix cfg bf s' false).2 ∧
      Event.bfNlpSolve ∉ (bound_fix cfg bf s' true).2) := by
  refine ⟨?_, ?_, ?_, ?_, ?_, ?_⟩
  · intro hng
    unfold MindtPy_iteration_loop
    rw [h]
    simp [hng]
  · intro hng b hb
    unfold MindtPy_iteration_loop
    rw [h]
    simp [hng, hb]
  · intro hng hb
    unfold MindtPy_iteration_loop
    rw [h]
    simp [hng, hb]
  · intro b
    cases b <;>
      cases hnt : bf.nlpTC <;>
        simp [bound_fix, bound_fix_nlp, bound_fix_update, hnt]
  · cases hnt : bf.nlpTC <;>
      simp [bound_fix, bound_fix_nlp, bound_fix_update, hnt]
  · simp [bound_fix, bound_fix_update]

/-- Witness for `bound_fix_condition_amended` at a concrete run that
breaks at the second termination check. -/
theorem bound_fix_condition_amended_witness :
    MindtPy_iteration_loop cfgBase (fun _ => benignEnv) bfEnv 3 sdBase =
      RunRes.done (bound_fix cfgBase bfEnv sdExit false).1
        (trExit ++ (bound_fix cfgBase bfEnv sdExit false).2) := by
  have h : loopGo cfgBase (fun _ => benignEnv) 3 0 sdBase [] =
      LoopRes.out sdExit LoopExit.brokeSecondCheck trExit := by
    norm_num [loopGo, loopBody, afterMaster, cbStep, algorithm_should_terminate,
      cfgBase, sdBase, benignEnv, sdExit, trExit]
  exact (bound_fix_condition_amended cfgBase (fun _ => benignEnv) bfEnv 3 sdBase
    sdExit LoopExit.brokeSecondCheck trExit h).2.1 rfl false rfl

/-- C7 counterexample: after a master solve whose termination condition
is `infeasible`, the loop breaks before the master post-solve callback:
the iteration's trace records the master solve and the infeasible
handler but no `call_after_master_solve` invocation. -/
theorem infeasible_master_skips_callback_cex :
    bodyTrace (loopBody cfgBase infEnv 0 sdBase) =
        [Event.masterSolve 0, Event.handleMasterInfeasible 0] ∧
    Event.masterSolve 0 ∈ bodyTrace (loopBody cfgBase infEnv 0 sdBase) ∧
    Event.masterCallback 0 ∉ bodyTrace (loopBody cfgBase infEnv 0 sdBase) := by
  have htr : bodyTrace (loopBody cfgBase infEnv 0 sdBase) =
      [Event.masterSolve 0, Event.handleMasterInfeasible 0] := by
    norm_num [loopBody, algorithm_should_terminate, bodyTrace, cfgBase, sdBase,
      infEnv, benignEnv]
  refine ⟨htr, ?_, ?_⟩ <;> rw [htr] <;> decide

/-- C7 amended: within an iteration, `call_after_master_solve` is
invoked after every master solve *except* one terminating `infeasible`
(which breaks the loop before the callback), and
`call_after_subproblem_solve` is invoked after every NLP subproblem
solve; an exception raised inside a callback is not caught — the body
returns it, and the iteration loop propagates it to its caller. -/
theorem callbacks_after_sub_solves_amended (cfg : Config) (env : Nat → IterEnv)
    (bf : BFEnv) (e : IterEnv) (k fuel : Nat) (s : SolveData) (er : PyErr)
    (trb : List Event) :
    (e.masterTC ≠ TCond.infeasible →
      Event.masterSolve k ∈ bodyTrace (loopBody cfg e k s) →
      Event.masterCallback k ∈ bodyTrace (loopBody cfg e k s)) ∧
    (Event.nlpSolve k ∈ bodyTrace (loopBody cfg e k s) →
      Event.nlpCallback k ∈ bodyTrace (loopBody cfg e k s)) ∧
    ((algorithm_should_terminate cfg e.elapsed1 false s).1 = false →
      cfg.strategyOA = true → e.masterTC = TCond.optimal →
      (∀ t, e.masterCb t = Except.error er) →
      loopBody cfg e k s =
        BodyRes.err er [Event.masterSolve k, Event.handleMasterOptimal k,
          Event.masterCallback k]) ∧
    (s.mip_iter < cfg.iteration_limit →
      loopBody cfg (env 0) 0 s = BodyRes.err er trb →
      MindtPy_iteration_loop cfg env bf (fuel + 1) s = RunRes.err er trb) := by
  refine ⟨?_, ?_, ?_, ?_⟩
  · unfold loopBody
    rcases hast : algorithm_should_terminate cfg e.elapsed1 false s with ⟨b, s1⟩
    cases b with
    | true =>
      dsimp only
      intro hmt hmem
      simp [bodyTrace] at hmem
    | false =>
      dsimp only
      intro hmt
      by_cases hOA : cfg.strategyOA = true
      · rw [if_pos hOA]
        cases hm : e.masterTC <;>
          first
            | exact fun _ => afterMaster_callback_mem cfg e k _ _
            | exact absurd hm hmt
      · rw [if_neg hOA]
        intro hmem
        simp [bodyTrace] at hmem
  · unfold loopBody
    rcases hast : algorithm_should_terminate cfg e.elapsed1 false s with ⟨b, s1⟩
    cases b with
    | true =>
      dsimp only
      intro hmem
      simp [bodyTrace] at hmem
    | false =>
      dsimp only
      by_cases hOA : cfg.strategyOA = true
      · rw [if_pos hOA]
        cases hm : e.masterTC <;>
          first
            | exact afterMaster_nlp_callback cfg e k _ _ (by simp)
            | (intro hmem; simp [bodyTrace] at hmem)
      · rw [if_neg hOA]
        intro hmem
        simp [bodyTrace] at hmem
  · intro hfc hOA hmt hcb
    unfold loopBody
    rcases hast : algorithm_should_terminate cfg e.elapsed1 false s with ⟨b, s1⟩
    rw [hast] at hfc
    simp only at hfc
    subst hfc
    dsimp only
    rw [if_pos hOA, hmt]
    dsimp only
    unfold afterMaster
    rw [hcb]
    simp
  · intro hguard hbody
    unfold MindtPy_iteration_loop loopGo
    rw [if_pos hguard, hbody]
    simp

/-- Witness for `callbacks_after_sub_solves_amended`: a master callback
that raises makes the loop body return the exception uncaught. -/
theorem callbacks_after_sub_solves_amended_witness :
    loopBody cfgBase raisingEnv 0 sdBase =
      BodyRes.err (PyErr.cbError 7)
        [Event.masterSolve 0, Event.handleMasterOptimal 0, Event.masterCallback 0] :=
  (callbacks_after_sub_solves_amended cfgBase (fun _ => benignEnv) bfEnv raisingEnv
      0 0 sdBase (PyErr.cbError 7) []).2.2.1
    (by norm_num [algorithm_should_terminate, cfgBase, sdBase, raisingEnv, benignEnv])
    rfl rfl (fun t => rfl)

/-- C8: after each master solve the loop branches on the master's
termination condition exactly as follows: `optimal` invokes the optimal
handler and the loop is not hard-stopped there; `infeasible` invokes the
infeasible handler and breaks the loop with `last_iter_cuts = True`;
every other condition invokes the recovery/diagnostic handler and the
loop is not hard-stopped there — an infeasible master is the only master
outcome that breaks the loop. -/
theorem master_termination_branching (cfg : Config) (e : IterEnv) (k : Nat)
    (s : SolveData)
    (h1 : (algorithm_should_terminate cfg e.elapsed1 false s).1 = false)
    (hOA : cfg.strategyOA = true) :
    (e.masterTC = TCond.optimal →
      Event.handleMasterOptimal k ∈ bodyTrace (loopBody cfg e k s) ∧
      bodyExit (loopBody cfg e k s) ≠ some LoopExit.brokeMasterInfeasible) ∧
    (e.masterTC = TCond.infeasible →
      loopBody cfg e k s =
        BodyRes.stop LoopExit.brokeMasterInfeasible
          (e.hMasterInf (e.masterEff
            {(algorithm_should_terminate cfg e.elapsed1 false s).2 with
              mip_subiter := 0}))
          [Event.masterSolve k, Event.handleMasterInfeasible k] ∧
      lastIterCuts LoopExit.brokeMasterInfeasible = some true) ∧
    (e.masterTC ≠ TCond.optimal → e.masterTC ≠ TCond.infeasible →
      Event.handleMasterOther k ∈ bodyTrace (loopBody cfg e k s) ∧
      bodyExit (loopBody cfg e k s) ≠ some LoopExit.brokeMasterInfeasible) ∧
    (∀ ex s' tr, loopBody cfg e k s = BodyRes.stop ex s' tr →
      ex = LoopExit.brokeMasterInfeasible → e.masterTC = TCond.infeasible) := by
  unfold loopBody
  rcases hast : algorithm_should_terminate cfg e.elapsed1 false s with ⟨b, s1⟩
  rw [hast] at h1
  simp only at h1
  subst h1
  dsimp only
  rw [if_pos hOA]
  refine ⟨?_, ?_, ?_, ?_⟩
  · intro hm
    rw [hm]
    dsimp only
    refine ⟨afterMaster_trace_mono cfg e k _ _ _ (by simp), ?_⟩
    rcases afterMaster_exit_cases cfg e k
        (e.hMasterOpt (e.masterEff {s1 with mip_subiter := 0}))
        [Event.masterSolve k, Event.handleMasterOptimal k] with hnone | hsc
    · rw [hnone]; simp
    · rw [hsc]; simp
  · intro hm
    rw [hm]
    dsimp only
    exact ⟨rfl, rfl⟩
  · intro hm1 hm2
    cases hm : e.masterTC
    all_goals first
      | exact absurd hm hm1
      | exact absurd hm hm2
      | (dsimp only
         refine ⟨afterMaster_trace_mono cfg e k _ _ _ (by simp), ?_⟩
         rcases afterMaster_exit_cases cfg e k
             (e.hMasterOther (e.masterEff {s1 with mip_subiter := 0}))
             [Event.masterSolve k, Event.handleMasterOther k] with hnone | hsc
         · rw [hnone]; simp
         · rw [hsc]; simp)
  · intro ex s' tr h hex
    cases hm : e.masterTC <;> rw [hm] at h <;> dsimp only at h
    all_goals first
      | exact hm
      | (rcases afterMaster_stop_shape _ _ _ _ _ _ _ _ h with ⟨hex2, -, -⟩
         subst hex2
         cases hex)

/-- Witness for `master_termination_branching`: an infeasible master
result breaks the loop with `last_iter_cuts = True`. -/
theorem master_termination_branching_witness :
    loopBody cfgBase infEnv 0 sdBase =
      BodyRes.stop LoopExit.brokeMasterInfeasible
        (infEnv.hMasterInf (infEnv.masterEff
          {(algorithm_should_terminate cfgBase infEnv.elapsed1 false sdBase).2 with
            mip_subiter := 0}))
        [Event.masterSolve 0, Event.handleMasterInfeasible 0] ∧
    lastIterCuts LoopExit.brokeMasterInfeasible = some true :=
  (master_termination_branching cfgBase infEnv 0 sdBase
    (by norm_num [algorithm_should_terminate, cfgBase, sdBase, infEnv, benignEnv])
    rfl).2.1 rfl
